import Mathlib

/-!
Verification of the etcdstore session-store adapter (ryicoh/etcdstore,
`etcdstore.go`) against its natural-language specification.

The Go source is shallow-embedded below.  Session value maps
(`map[interface{}]interface{}` in Go) become association lists over a small
universe of Go values; the etcd backend (external collaborator) is an oracle
of response functions, and every store operation returns, besides its result,
the list of externally visible effects (backend calls and emitted cookies) in
the order the code performs them.  The external libraries encoding/json,
encoding/gob and gorilla/securecookie are not part of the repository; they
are modelled from the specification's description of them (canonical
injective encodings with correct decoders, signed tokens).
-/

set_option autoImplicit false

/-- Decidable equality for `Except`, so that concrete runs of the embedded
operations can be checked by `decide`. -/
instance {ε α : Type} [DecidableEq ε] [DecidableEq α] : DecidableEq (Except ε α) := fun x y =>
  match x, y with
  | .ok a, .ok b =>
      if h : a = b then .isTrue (by rw [h]) else .isFalse (fun hc => h (Except.ok.inj hc))
  | .error a, .error b =>
      if h : a = b then .isTrue (by rw [h]) else .isFalse (fun hc => h (Except.error.inj hc))
  | .ok _, .error _ => .isFalse (fun h => Except.noConfusion h)
  | .error _, .ok _ => .isFalse (fun h => Except.noConfusion h)

namespace Etcdstore

/-- A key of a Go session value map (`interface{}` restricted to the
comparable types exercised here: strings and ints). -/
inductive GoKey where
  | str (s : String)
  | int (n : Int)
  deriving DecidableEq, Repr

/-- A value of a Go session value map. -/
inductive GoVal where
  | str (s : String)
  | int (n : Int)
  | bool (b : Bool)
  deriving DecidableEq, Repr

/-- The in-memory session value map `ss.Values`.  Go maps have unique keys;
the embedding keeps them as association lists, with `valInsert` mirroring Go
map assignment (replace if present, else append). -/
abbrev Values := List (GoKey × GoVal)

/-- Go map assignment `m[k] = v`: replace the binding if the key is present,
otherwise append a new binding. -/
def valInsert : Values → GoKey → GoVal → Values
  | [], k, v => [(k, v)]
  | (k', v') :: rest, k, v =>
      if k' = k then (k, v) :: rest else (k', v') :: valInsert rest k v

/-- Go map read `m[k]`. -/
def valLookup : Values → GoKey → Option GoVal
  | [], _ => none
  | (k', v') :: rest, k => if k' = k then some v' else valLookup rest k

/-- Whether a key is a Go string (the `k.(string)` type assertion in
`JSONSerializer.Serialize`). -/
def GoKey.isStr : GoKey → Bool
  | .str _ => true
  | _ => false

/-- The string carried by a string key (unused branch for non-string keys). -/
def GoKey.asStr : GoKey → String
  | .str s => s
  | .int _ => ""

/-- Error kinds of the store, one constructor per distinct error kind the Go
code can produce (`errors.New`/`fmt.Errorf` values, securecookie errors and
wrapped backend errors are distinguishable by the caller). -/
inductive StoreErr where
  /-- serialization / deserialization failure (JSON or gob). -/
  | serialization (msg : String)
  /-- the `SessionStore: the value to store is too big` error of `save`. -/
  | tooBig
  /-- an error returned by the etcd client (Grant/Put/Get/Delete). -/
  | backend (msg : String)
  /-- a securecookie decode failure (bad/tampered/expired identifier). -/
  | identifierDecode (msg : String)
  /-- a securecookie encode failure. -/
  | encodeCookie (msg : String)
  deriving DecidableEq, Repr

/-- Serialized session payload, as handed to / received from etcd.
Modelled from the spec: encoding/json and encoding/gob are external
libraries; each strategy's output is a canonical, self-describing encoding,
so a payload is a tagged value rather than raw bytes. -/
inductive Payload where
  /-- a JSON document: a text object with string keys. -/
  | json (m : List (String × GoVal))
  /-- a gob stream encoding a whole `map[interface{}]interface{}`. -/
  | gob (m : List (GoKey × GoVal))
  deriving DecidableEq, Repr

/-- Byte size of an encoded Go value (concrete model of the encoded width,
used only through comparisons with the configured maximum length). -/
def GoVal.size : GoVal → Nat
  | .str s => s.length + 2
  | .int _ => 8
  | .bool _ => 1

/-- Byte size of an encoded Go key. -/
def GoKey.size : GoKey → Nat
  | .str s => s.length + 2
  | .int _ => 8

/-- Length in bytes of a serialized payload (`len(b)` in Go): a concrete,
monotone size model of the encodings. -/
def Payload.size : Payload → Nat
  | .json m => 2 + (m.map (fun p => p.1.length + 3 + p.2.size)).sum
  | .gob m => 16 + (m.map (fun p => p.1.size + p.2.size)).sum

/-- The message of the non-string-key error of `JSONSerializer.Serialize`. -/
def nonStrMsg : String := "Non-string key value, cannot serialize session to JSON"

/-- `JSONSerializer.Serialize`'s loop over `ss.Values`: build the
string-keyed map, failing on the first non-string key
(`Non-string key value, cannot serialize session to JSON`). -/
def jsonSerializeEntries : Values → Except StoreErr (List (String × GoVal))
  | [] => .ok []
  | (GoKey.str s, v) :: rest =>
      match jsonSerializeEntries rest with
      | .ok m => .ok ((s, v) :: m)
      | .error e => .error e
  | (_, _) :: _ => .error (.serialization nonStrMsg)

/-- `JSONSerializer.Serialize`: copy `ss.Values` into a `map[string]interface{}`
(error on a non-string key) and `json.Marshal` it. -/
def jsonSerialize (vs : Values) : Except StoreErr Payload :=
  match jsonSerializeEntries vs with
  | .ok m => .ok (.json m)
  | .error e => .error e

/-- Modelled from the spec: `json.Unmarshal` into a `map[string]interface{}`.
The external decoder recovers exactly the object a JSON payload encodes and
fails on any other byte stream. -/
def jsonUnmarshal : Payload → Except StoreErr (List (String × GoVal))
  | .json m => .ok m
  | .gob _ => .error (.serialization "invalid character in JSON input")

/-- `JSONSerializer.Deserialize`: unmarshal, then merge the decoded entries
into `ss.Values` with `ss.Values[k] = v` (additive: no clearing first). -/
def jsonDeserialize (d : Payload) (target : Values) : Except StoreErr Values :=
  match jsonUnmarshal d with
  | .error e => .error e
  | .ok m => .ok (m.foldl (fun acc p => valInsert acc (.str p.1) p.2) target)

/-- `GobSerializer.Serialize`: gob-encode the whole value map.  Modelled from
the spec: the binary tagged encoding supports arbitrary key/value types and
never fails on the value universe used here. -/
def gobSerialize (vs : Values) : Except StoreErr Payload :=
  .ok (.gob vs)

/-- `GobSerializer.Deserialize`: `dec.Decode(&ss.Values)` — the decoded map
fully replaces the target map's backing structure; a non-gob payload fails
the whole call. -/
def gobDeserialize (d : Payload) : Values → Except StoreErr Values
  | _ =>
    match d with
    | .gob m => .ok m
    | .json _ => .error (.serialization "gob: bad data")

/-- The serializer strategy installed in the store (`SessionSerializer`). -/
inductive SerializerKind where
  | json
  | gob
  deriving DecidableEq, Repr

/-- Dispatch `s.serializer.Serialize(session)`. -/
def serialize : SerializerKind → Values → Except StoreErr Payload
  | .json, vs => jsonSerialize vs
  | .gob, vs => gobSerialize vs

/-- Dispatch `s.serializer.Deserialize(d, session)`. -/
def deserialize : SerializerKind → Payload → Values → Except StoreErr Values
  | .json, d, t => jsonDeserialize d t
  | .gob, d, t => gobDeserialize d t

/-- Cookie/session options (`gorilla/sessions.Options`): the fields the
embedded operations read or copy. -/
structure Options where
  Path : String
  Domain : String
  MaxAge : Int
  Secure : Bool
  HttpOnly : Bool
  deriving DecidableEq, Repr

/-- A `securecookie.SecureCookie` codec: a hash key, an optional block key
and the age-validation threshold set by `MaxAge`. -/
structure SecureCookie where
  hashKey : String
  blockKey : Option String
  maxAge : Int
  deriving DecidableEq, Repr

/-- An entry of `EtcdStore.Codecs`: either a `*securecookie.SecureCookie`
(the type assertion in `SetMaxAge` succeeds) or some other implementation of
the codec capability (the assertion fails and the entry is skipped). -/
inductive Codec where
  | secure (sc : SecureCookie)
  | other (tag : String)
  deriving DecidableEq, Repr

/-- A cookie value as seen by the codecs: a signed token, the empty string
written by the deletion path, or arbitrary garbage. -/
inductive CookieVal where
  | token (hashKey : String) (name : String) (id : String)
  | blank
  | garbage (s : String)
  deriving DecidableEq, Repr

/-- Modelled from the spec: one codec's decode — accept exactly the tokens
this codec would have produced for this cookie name. -/
def codecDecode (c : Codec) (nm : String) (cv : CookieVal) : Except StoreErr String :=
  match c, cv with
  | .secure sc, .token hk n id =>
      if hk = sc.hashKey ∧ n = nm then .ok id
      else .error (.identifierDecode "the value is not valid")
  | _, _ => .error (.identifierDecode "the value is not valid")

/-- Modelled from the spec: `securecookie.DecodeMulti` — try every configured
codec in order, succeed on the first valid match, fail if none accepts. -/
def decodeMulti (nm : String) (cv : CookieVal) : List Codec → Except StoreErr String
  | [] => .error (.identifierDecode "no codec accepted the cookie value")
  | c :: rest =>
      match codecDecode c nm cv with
      | .ok id => .ok id
      | .error _ => decodeMulti nm cv rest

/-- Modelled from the spec: `securecookie.EncodeMulti` — the first key pair
is authoritative for encoding; with no usable codec, encoding fails. -/
def encodeMulti (nm : String) (id : String) : List Codec → Except StoreErr CookieVal
  | [] => .error (.encodeCookie "no codecs provided")
  | .secure sc :: _ => .ok (.token sc.hashKey nm id)
  | .other _ :: _ => .error (.encodeCookie "codec cannot encode")

/-- A `sessions.Session` (the fields `etcdstore.go` uses). -/
structure Session where
  ID : String
  name : String
  Values : Values
  Options : Options
  IsNew : Bool
  deriving DecidableEq, Repr

/-- The etcd backend oracle: for each call the code may make, the response
the external etcd cluster would give.  `getRes` returns either a client
error, a nil response, or the list of key-value pairs matching the key. -/
structure Backend where
  grantRes : Int → Except String Nat
  putRes : String → Payload → Nat → Option String
  getRes : String → Except String (Option (List Payload))
  delRes : String → Option String

/-- An externally visible effect of a store operation, in program order:
etcd client calls and `http.SetCookie` emissions. -/
inductive Effect where
  | grant (ttl : Int)
  | put (key : String) (value : Payload) (lease : Nat)
  | get (key : String)
  | del (key : String)
  | setCookie (name : String) (value : CookieVal) (opts : Options)
  deriving DecidableEq, Repr

/-- The `EtcdStore` struct.  `keyPref` embeds the Go field `keyPrefix`. -/
structure EtcdStore where
  Codecs : List Codec
  options : Options
  DefaultMaxAge : Int
  maxLength : Nat
  keyPref : String
  serializer : SerializerKind
  deriving DecidableEq, Repr

/-- `SetMaxLength`: update `maxLength` only when the argument is
non-negative (the embedding's `Nat` argument is always accepted). -/
def EtcdStore.SetMaxLength (s : EtcdStore) (l : Nat) : EtcdStore :=
  { s with maxLength := l }

/-- `SetMaxAge`: set the store's default `options.MaxAge` and the `MaxAge`
of every codec in the list that is a `*securecookie.SecureCookie`; other
codec implementations are skipped. -/
def EtcdStore.SetMaxAge (s : EtcdStore) (v : Int) : EtcdStore :=
  { s with
    options := { s.options with MaxAge := v }
    Codecs := s.Codecs.map fun c =>
      match c with
      | .secure sc => .secure { sc with maxAge := v }
      | .other t => .other t }

/-- The effective lease age computed inside `save`: `age := MaxAge; if age
== 0 { age = DefaultMaxAge }`. -/
def effectiveMaxAge (s : EtcdStore) (sess : Session) : Int :=
  if sess.Options.MaxAge = 0 then s.DefaultMaxAge else sess.Options.MaxAge

/-- `EtcdStore.save` (lower-case): serialize, enforce the maximum length,
grant a lease sized to the effective max-age, put the record under
`keyPrefix + ID` bound to the lease.  Returns the error, if any, and the
backend calls performed. -/
def EtcdStore.save (s : EtcdStore) (b : Backend) (sess : Session) :
    Option StoreErr × List Effect :=
  match serialize s.serializer sess.Values with
  | .error e => (some e, [])
  | .ok p =>
      if s.maxLength ≠ 0 ∧ p.size > s.maxLength then (some .tooBig, [])
      else
        match b.grantRes (effectiveMaxAge s sess) with
        | .error e => (some (.backend e), [.grant (effectiveMaxAge s sess)])
        | .ok lease =>
            match b.putRes (s.keyPref ++ sess.ID) p lease with
            | some e =>
                (some (.backend e),
                  [.grant (effectiveMaxAge s sess), .put (s.keyPref ++ sess.ID) p lease])
            | none =>
                (none,
                  [.grant (effectiveMaxAge s sess), .put (s.keyPref ++ sess.ID) p lease])

/-- `EtcdStore.delete` (lower-case): remove the key from etcd; nothing else. -/
def EtcdStore.delete (s : EtcdStore) (b : Backend) (sess : Session) :
    Option StoreErr × List Effect :=
  match b.delRes (s.keyPref ++ sess.ID) with
  | some e => (some (.backend e), [.del (s.keyPref ++ sess.ID)])
  | none => (none, [.del (s.keyPref ++ sess.ID)])

/-- `EtcdStore.Save`: with `MaxAge <= 0`, delete the record and (on success)
emit an immediately-expiring cookie; otherwise assign a fresh random
identifier if none exists (`newID` stands for the external
`base32(GenerateRandomKey(32))`), run `save`, encode the identifier, and
emit the cookie only after everything succeeded.  Returns the error, the
session as left by the call, and the effects in program order. -/
def EtcdStore.Save (s : EtcdStore) (b : Backend) (newID : String) (sess : Session) :
    Option StoreErr × Session × List Effect :=
  if sess.Options.MaxAge ≤ 0 then
    match s.delete b sess with
    | (some e, effs) => (some e, sess, effs)
    | (none, effs) =>
        (none, sess, effs ++ [.setCookie sess.name .blank sess.Options])
  else
    let sess1 := if sess.ID = "" then { sess with ID := newID } else sess
    match s.save b sess1 with
    | (some e, effs) => (some e, sess1, effs)
    | (none, effs) =>
        match encodeMulti sess1.name sess1.ID s.Codecs with
        | .error e => (some e, sess1, effs)
        | .ok cv => (none, sess1, effs ++ [.setCookie sess1.name cv sess1.Options])

/-- `EtcdStore.load`: get the record by prefixed key; a client error is
returned as `(false, err)`; a nil response or a match count other than one
is "absent" `(false, nil)`; exactly one match is deserialized into the
session's value map, returning `(true, deserialize-error-if-any)`. -/
def EtcdStore.load (s : EtcdStore) (b : Backend) (sess : Session) :
    (Bool × Option StoreErr) × Session × List Effect :=
  let key := s.keyPref ++ sess.ID
  match b.getRes key with
  | .error e => ((false, some (.backend e)), sess, [.get key])
  | .ok none => ((false, none), sess, [.get key])
  | .ok (some kvs) =>
      match kvs with
      | [v] =>
          match deserialize s.serializer v sess.Values with
          | .error e => ((true, some e), sess, [.get key])
          | .ok vals => ((true, none), { sess with Values := vals }, [.get key])
      | _ => ((false, none), sess, [.get key])

/-- `EtcdStore.New`: build a fresh session carrying a copy of the store's
default options with `IsNew = true`; when the request carries a cookie for
this name, decode the identifier (surfacing decode errors) and, on success,
load the record; `IsNew` stays true unless the load returned data without
error.  The Go `New` is embedded as `new` (lower-case) since the session is
rebuilt functionally. -/
def EtcdStore.new (s : EtcdStore) (b : Backend) (cookie : Option CookieVal) (nm : String) :
    Session × Option StoreErr × List Effect :=
  let session : Session :=
    { ID := "", name := nm, Values := [], Options := s.options, IsNew := true }
  match cookie with
  | none => (session, none, [])
  | some cv =>
      match decodeMulti nm cv s.Codecs with
      | .error e => (session, some e, [])
      | .ok id =>
          let session := { session with ID := id }
          match s.load b session with
          | ((ok, err), sess', effs) =>
              ({ sess' with IsNew := !(err = none ∧ ok) }, err, effs)

/-- A heap of `sessions.Options` cells, making the Go pointer structure of
`New` explicit: `EtcdStore.options` and `Session.Options` are `*Options`
pointers, modelled as indices into this heap. -/
abbrev OptHeap := List Options

/-- Zero value used when reading a dangling reference. -/
def zeroOptions : Options :=
  { Path := "", Domain := "", MaxAge := 0, Secure := false, HttpOnly := false }

/-- Dereference an options pointer. -/
def heapGet (h : OptHeap) (r : Nat) : Options :=
  h.getD r zeroOptions

/-- Assign through an options pointer (`session.Options.MaxAge = -1` etc.). -/
def heapSet (h : OptHeap) (r : Nat) (o : Options) : OptHeap :=
  h.set r o

/-- The pointer-level content of lines 193-196 of `New`:
`options := *s.options; session.Options = &options` — allocate a fresh cell
holding a copy of the store's options and return its address. -/
def newSessionOptions (h : OptHeap) (storeRef : Nat) : OptHeap × Nat :=
  (h ++ [heapGet h storeRef], h.length)

/-! Concrete fixtures used to exercise the embedded operations on closed
inputs: a one-key-pair codec list, the default options and store of
`NewEtcdStore`, and small backends/sessions. -/

/-- A store codec holding one key pair. -/
def wCodec : Codec := .secure { hashKey := "hk", blockKey := none, maxAge := 2592000 }

/-- The default options built by `NewEtcdStore` (`Path "/"`, `MaxAge
sessionExpire = 86400 * 30`). -/
def wOptions : Options :=
  { Path := "/", Domain := "", MaxAge := 2592000, Secure := false, HttpOnly := false }

/-- The store as configured by `NewEtcdStore` with one key pair. -/
def baseStore : EtcdStore :=
  { Codecs := [wCodec], options := wOptions, DefaultMaxAge := 1200,
    maxLength := 4096, keyPref := "session_", serializer := .gob }

/-- A backend whose every call succeeds and whose `get` finds nothing. -/
def okBackend : Backend :=
  { grantRes := fun _ => .ok 7, putRes := fun _ _ _ => none,
    getRes := fun _ => .ok none, delRes := fun _ => none }

/-- A session marked for deletion (`MaxAge = -1`) holding one value. -/
def cxSession1 : Session :=
  { ID := "abc", name := "sess", Values := [(.str "foo", .str "bar")],
    Options := { wOptions with MaxAge := -1 }, IsNew := false }

/-- A session with `MaxAge = 0` (also the deletion path of `Save`). -/
def wSession1 : Session :=
  { ID := "k9", name := "sess", Values := [(.str "x", .int 3)],
    Options := { wOptions with MaxAge := 0 }, IsNew := false }

/-- A backend whose `get` fails with an etcd client error. -/
def cxBackend2 : Backend :=
  { okBackend with getRes := fun _ => .error "etcdserver: request timed out" }

/-- A second failing-get backend. -/
def wBackend2 : Backend :=
  { okBackend with getRes := fun _ => .error "connection refused" }

/-- A cookie value signed with `wCodec` for session name `sess`, id `abc`. -/
def wCookie : CookieVal := .token "hk" "sess" "abc"

/-- The base store with a 3-byte maximum serialized length. -/
def wStore3 : EtcdStore := { baseStore with maxLength := 3 }

/-- A fresh session whose payload exceeds 3 bytes. -/
def wSession3 : Session :=
  { ID := "", name := "sess", Values := [(.str "a", .str "xxxx")],
    Options := wOptions, IsNew := true }

/-- A session with `MaxAge = 10`, to be persisted. -/
def wSession5 : Session :=
  { ID := "abc", name := "sess", Values := [(.str "foo", .str "bar")],
    Options := { wOptions with MaxAge := 10 }, IsNew := false }

/-- The base store configured with the JSON serializer. -/
def cxStore6 : EtcdStore := { baseStore with serializer := .json }

/-- A backend whose `get` succeeds with exactly one record whose payload is
a gob stream (not JSON). -/
def cxBackend6 : Backend :=
  { okBackend with getRes := fun _ => .ok (some [.gob [(.int 1, .int 2)]]) }

/-- A backend whose `get` succeeds with two matching records. -/
def wBackendTwo : Backend :=
  { okBackend with getRes := fun _ => .ok (some [.gob [], .gob []]) }

/-- An empty session carrying identifier `abc`. -/
def cxSession6 : Session :=
  { ID := "abc", name := "sess", Values := [], Options := wOptions, IsNew := true }

/-- The base store with one secure codec (age threshold 5) and one
non-SecureCookie codec. -/
def wStore7 : EtcdStore :=
  { baseStore with
    Codecs := [.secure { hashKey := "hk", blockKey := none, maxAge := 5 }, .other "x"] }

end Etcdstore

namespace Etcdstore

example : jsonSerialize [(.str "a", .int 1)] = .ok (.json [("a", .int 1)]) := by decide

example : jsonSerialize [(.int 3, .int 1)] =
    .error (.serialization "Non-string key value, cannot serialize session to JSON") := by
  decide

example : jsonDeserialize (.json [("a", .int 1)]) [] = .ok [(.str "a", .int 1)] := by decide

example : gobDeserialize (.gob [(.int 3, .bool true)]) [(.str "x", .int 0)] =
    .ok [(.int 3, .bool true)] := by decide

/-- Inserting under one key leaves the lookup of any other key unchanged. -/
theorem valLookup_valInsert_ne (vs : Values) (k' k : GoKey) (v : GoVal) (h : k' ≠ k) :
    valLookup (valInsert vs k' v) k = valLookup vs k := by
  induction vs with
  | nil => simp [valInsert, valLookup, h]
  | cons p rest ih =>
      obtain ⟨pk, pv⟩ := p
      by_cases hk : pk = k'
      · subst hk
        simp [valInsert, valLookup, h]
      · simp only [valInsert, if_neg hk]
        by_cases hk2 : pk = k
        · simp [valLookup, hk2]
        · simp [valLookup, hk2, ih]

/-- Inserting a key absent from the map appends the binding. -/
theorem valInsert_of_forall_ne (vs : Values) (k : GoKey) (v : GoVal)
    (h : ∀ p ∈ vs, p.1 ≠ k) :
    valInsert vs k v = vs ++ [(k, v)] := by
  induction vs with
  | nil => simp [valInsert]
  | cons p rest ih =>
      obtain ⟨pk, pv⟩ := p
      have hpk : pk ≠ k := h (pk, pv) (List.mem_cons_self _ _)
      simp only [valInsert, if_neg hpk, List.cons_append, List.cons.injEq, true_and]
      exact ih fun q hq => h q (List.mem_cons_of_mem _ hq)

/-- The merge loop of `JSONSerializer.Deserialize` over decoded entries with
pairwise-distinct keys, all absent from the target, appends them in order. -/
theorem jsonMergeFold_eq_append (es : List (String × GoVal)) (acc : Values)
    (hdisj : ∀ p ∈ es, ∀ q ∈ acc, q.1 ≠ GoKey.str p.1)
    (hnd : (es.map Prod.fst).Nodup) :
    es.foldl (fun a p => valInsert a (.str p.1) p.2) acc =
      acc ++ es.map (fun p => (GoKey.str p.1, p.2)) := by
  induction es generalizing acc with
  | nil => simp
  | cons e rest ih =>
      simp only [List.foldl_cons]
      rw [valInsert_of_forall_ne acc (GoKey.str e.1) e.2
            (fun q hq => hdisj e (List.mem_cons_self _ _) q hq)]
      rw [ih (acc ++ [(GoKey.str e.1, e.2)])]
      · simp
      · intro p hp q hq
        rcases List.mem_append.mp hq with hq | hq
        · exact hdisj p (List.mem_cons_of_mem _ hp) q hq
        · have hqe : q = (GoKey.str e.1, e.2) := List.mem_singleton.mp hq

          subst hqe
          have hne : e.1 ≠ p.1 := by
            intro hcontra
            have : e.1 ∈ rest.map Prod.fst := by
              rw [hcontra]
              exact List.mem_map_of_mem _ hp
            exact (List.nodup_cons.mp (by simpa using hnd)).1 this
          simp [hne]
      · exact (List.nodup_cons.mp (by simpa using hnd)).2

/-- The merge loop leaves the lookup of any key not among the decoded
entries' keys unchanged. -/
theorem valLookup_jsonMergeFold_notMem (es : List (String × GoVal)) (t : Values) (k : GoKey)
    (h : ∀ p ∈ es, GoKey.str p.1 ≠ k) :
    valLookup (es.foldl (fun a p => valInsert a (.str p.1) p.2) t) k = valLookup t k := by
  induction es generalizing t with
  | nil => simp
  | cons e rest ih =>
      simp only [List.foldl_cons]
      rw [ih (valInsert t (.str e.1) e.2) (fun p hp => h p (List.mem_cons_of_mem _ hp))]
      exact valLookup_valInsert_ne t _ k _ (h e (List.mem_cons_self _ _))

/-- When every key of the value map is a string, the serialization loop of
`JSONSerializer.Serialize` produces the corresponding string-keyed entries. -/
theorem jsonSerializeEntries_of_allStr (vs : Values)
    (h : ∀ p ∈ vs, p.1.isStr = true) :
    jsonSerializeEntries vs = .ok (vs.map fun p => (p.1.asStr, p.2)) := by
  induction vs with
  | nil => rfl
  | cons p rest ih =>
      obtain ⟨pk, pv⟩ := p
      cases pk with
      | str s =>
          simp only [jsonSerializeEntries,
            ih (fun q hq => h q (List.mem_cons_of_mem _ hq))]
          simp [GoKey.asStr]
      | int n =>
          have := h (GoKey.int n, pv) (List.mem_cons_self _ _)
          simp [GoKey.isStr] at this

/-- When some key of the value map is not a string, the serialization loop
of `JSONSerializer.Serialize` fails with the non-string-key error. -/
theorem jsonSerializeEntries_of_nonStr (vs : Values)
    (h : ∃ p ∈ vs, p.1.isStr = false) :
    jsonSerializeEntries vs = .error (.serialization nonStrMsg) := by
  induction vs with
  | nil => simp at h
  | cons p rest ih =>
      obtain ⟨pk, pv⟩ := p
      cases pk with
      | str s =>
          obtain ⟨q, hq, hqs⟩ := h
          rcases List.mem_cons.mp hq with hq | hq
          · subst hq
            simp [GoKey.isStr] at hqs
          · simp only [jsonSerializeEntries, ih ⟨q, hq, hqs⟩]
      | int n => rfl

/-- Re-tagging the string keys of an all-string-keyed value map is the
identity. -/
theorem map_strKey_id (m : Values) (h : ∀ p ∈ m, p.1.isStr = true) :
    m.map (fun p => (GoKey.str p.1.asStr, p.2)) = m := by
  induction m with
  | nil => rfl
  | cons p rest ih =>
      obtain ⟨pk, pv⟩ := p
      cases pk with
      | str s =>
          simp only [List.map_cons]
          rw [ih fun q hq => h q (List.mem_cons_of_mem _ hq)]
          rfl
      | int n =>
          have := h (GoKey.int n, pv) (List.mem_cons_self _ _)
          simp [GoKey.isStr] at this

/-- Turning distinct all-string keys into their strings keeps them
distinct. -/
theorem nodup_mapped_str_keys (m : Values) (h : ∀ p ∈ m, p.1.isStr = true)
    (hnd : (m.map Prod.fst).Nodup) :
    ((m.map (fun p => (p.1.asStr, p.2))).map Prod.fst).Nodup := by
  have hmm : (m.map (fun p => (p.1.asStr, p.2))).map Prod.fst =
      (m.map Prod.fst).map GoKey.asStr := by
    simp [List.map_map, Function.comp]
  rw [hmm]
  refine List.Nodup.map_on ?_ hnd
  intro x hx y hy hxy
  obtain ⟨px, hpx, hpx2⟩ := List.mem_map.mp hx
  obtain ⟨py, hpy, hpy2⟩ := List.mem_map.mp hy
  have hxs : x.isStr = true := hpx2 ▸ h px hpx
  have hys : y.isStr = true := hpy2 ▸ h py hpy
  cases x with
  | str sx =>
      cases y with
      | str sy => simpa [GoKey.asStr] using hxy
      | int k => simp [GoKey.isStr] at hys
  | int n => simp [GoKey.isStr] at hxs

/-- `save` never emits a cookie: its effects are backend calls only. -/
theorem save_effects_no_cookie (s : EtcdStore) (b : Backend) (sess : Session)
    (nm : String) (cv : CookieVal) (o : Options) :
    Effect.setCookie nm cv o ∉ (s.save b sess).2 := by
  unfold EtcdStore.save
  split
  · simp
  · split
    · simp
    · split
      · simp
      · split <;> simp

/-- `delete` never emits a cookie either. -/
theorem delete_effects_no_cookie (s : EtcdStore) (b : Backend) (sess : Session)
    (nm : String) (cv : CookieVal) (o : Options) :
    Effect.setCookie nm cv o ∉ (s.delete b sess).2 := by
  unfold EtcdStore.delete
  split <;> simp

/-- Every lease `save` asks for is sized to the effective max-age. -/
theorem save_grant_ttl (s : EtcdStore) (b : Backend) (sess : Session) (ttl : Int)
    (hmem : Effect.grant ttl ∈ (s.save b sess).2) :
    ttl = effectiveMaxAge s sess := by
  unfold EtcdStore.save at hmem
  split at hmem
  · simp at hmem
  · split at hmem
    · simp at hmem
    · split at hmem
      · simp_all
      · split at hmem <;> simp_all

/-- `save` under an oversized payload: the distinct too-big error, no calls. -/
theorem save_too_big (s : EtcdStore) (b : Backend) (sess : Session) (p : Payload)
    (hser : serialize s.serializer sess.Values = .ok p)
    (hml : s.maxLength ≠ 0) (hlen : p.size > s.maxLength) :
    s.save b sess = (some .tooBig, []) := by
  unfold EtcdStore.save
  rw [hser]
  simp [hml, hlen]

/-- The session `Save` hands to `save` (a fresh identifier is assigned when
none exists) keeps the value map and options of the incoming session. -/
theorem save_session_fields (sess : Session) (nid : String) :
    (if sess.ID = "" then { sess with ID := nid } else sess).Values = sess.Values ∧
    (if sess.ID = "" then { sess with ID := nid } else sess).Options = sess.Options ∧
    (if sess.ID = "" then { sess with ID := nid } else sess).name = sess.name := by
  split <;> simp

/-- `load` when the backend `get` itself fails. -/
theorem load_get_error (s : EtcdStore) (b : Backend) (sess : Session) (be : String)
    (hget : b.getRes (s.keyPref ++ sess.ID) = .error be) :
    s.load b sess = ((false, some (.backend be)), sess, [.get (s.keyPref ++ sess.ID)]) := by
  unfold EtcdStore.load
  simp only []
  rw [hget]

/-- C1 counterexample: saving a session with `MaxAge = -1` does remove the
backing record and emit an immediately-expiring cookie, but the returned
session still holds its value map untouched — `Save` never clears
`session.Values` (only the deprecated `Delete` method does). -/
theorem save_delete_clears_values_cx :
    baseStore.Save okBackend "NID" cxSession1 =
      (none, cxSession1,
        [.del "session_abc", .setCookie "sess" .blank cxSession1.Options]) ∧
    cxSession1.Values = [(.str "foo", .str "bar")] ∧
    cxSession1.Options.MaxAge = -1 := by decide

/-- C1 (amended): for every session with `Options.MaxAge <= 0` whose backend
delete succeeds, `Save` removes the backing record, emits an
immediately-expiring cookie (the cookie carries the session's options,
whose max-age is non-positive), and leaves the session — in particular its
in-memory value map — unchanged. -/
theorem save_delete_path_leaves_values (s : EtcdStore) (b : Backend) (nid : String)
    (sess : Session) (hage : sess.Options.MaxAge ≤ 0)
    (hdel : b.delRes (s.keyPref ++ sess.ID) = none) :
    s.Save b nid sess =
      (none, sess,
        [.del (s.keyPref ++ sess.ID), .setCookie sess.name .blank sess.Options]) := by
  unfold EtcdStore.Save
  simp only [if_pos hage]
  unfold EtcdStore.delete
  rw [hdel]
  rfl

/-- C1 witness: the amended statement at a concrete deletion. -/
theorem save_delete_path_leaves_values_witness :
    baseStore.Save okBackend "NID" wSession1 =
      (none, wSession1,
        [.del (baseStore.keyPref ++ wSession1.ID),
         .setCookie wSession1.name .blank wSession1.Options]) :=
  save_delete_path_leaves_values baseStore okBackend "NID" wSession1 (by decide) rfl

/-- C2 counterexample: with a cookie whose identifier decodes successfully
(`decodeMulti` returns the id) and a backend whose `get` fails, `New`
returns the load error to the caller instead of swallowing it. -/
theorem new_swallows_load_error_cx :
    decodeMulti "sess" wCookie baseStore.Codecs = .ok "abc" ∧
    (baseStore.new cxBackend2 (some wCookie) "sess").2.1 =
      some (.backend "etcdserver: request timed out") ∧
    (baseStore.new cxBackend2 (some wCookie) "sess").1.IsNew = true := by decide

/-- C2 (amended): when the cookie's identifier decodes successfully but the
subsequent store load fails, `New` surfaces the load error to the caller
alongside a session with `IsNew = true` and an empty value map; it does not
swallow it. -/
theorem new_load_error_surfaced (s : EtcdStore) (b : Backend) (nm : String) (cv : CookieVal)
    (id be : String)
    (hdec : decodeMulti nm cv s.Codecs = .ok id)
    (hget : b.getRes (s.keyPref ++ id) = .error be) :
    (s.new b (some cv) nm).2.1 = some (.backend be) ∧
    (s.new b (some cv) nm).1.IsNew = true ∧
    (s.new b (some cv) nm).1.Values = [] := by
  have hload := load_get_error s b
    { ID := id, name := nm, Values := [], Options := s.options, IsNew := true } be hget
  unfold EtcdStore.new
  simp only [hdec]
  simp only [hload]
  simp

/-- C2 witness: the amended statement at a concrete failing load. -/
theorem new_load_error_surfaced_witness :
    (baseStore.new wBackend2 (some wCookie) "sess").2.1 =
      some (.backend "connection refused") ∧
    (baseStore.new wBackend2 (some wCookie) "sess").1.IsNew = true := by
  have h := new_load_error_surfaced baseStore wBackend2 "sess" wCookie "abc"
    "connection refused" (by decide) rfl
  exact ⟨h.1, h.2.1⟩

/-- C3: a session whose serialized payload is longer than the configured
nonzero maximum length fails `Save` with the distinct too-big error kind
and performs zero backend calls: neither a lease grant nor a put reaches
the backend, the size check rejects first. -/
theorem save_too_big_no_backend_calls (s : EtcdStore) (b : Backend) (nid : String)
    (sess : Session) (p : Payload)
    (hage : 0 < sess.Options.MaxAge)
    (hser : serialize s.serializer sess.Values = .ok p)
    (hml : s.maxLength ≠ 0) (hlen : p.size > s.maxLength) :
    (s.Save b nid sess).1 = some .tooBig ∧ (s.Save b nid sess).2.2 = [] := by
  have hnle : ¬ sess.Options.MaxAge ≤ 0 := not_le.mpr hage
  unfold EtcdStore.Save
  simp only [if_neg hnle]
  rw [save_too_big s b (if sess.ID = "" then { sess with ID := nid } else sess) p
        (by rw [(save_session_fields sess nid).1]; exact hser) hml hlen]
  simp

/-- C3 witness: a 28-byte payload against a 3-byte limit. -/
theorem save_too_big_no_backend_calls_witness :
    (wStore3.Save okBackend "NID" wSession3).1 = some .tooBig ∧
    (wStore3.Save okBackend "NID" wSession3).2.2 = [] :=
  save_too_big_no_backend_calls wStore3 okBackend "NID" wSession3
    (.gob [(.str "a", .str "xxxx")]) (by decide) (by decide) (by decide) (by decide)

/-- C5: for a session saved with positive `Options.MaxAge`, every lease
granted during `Save` has a TTL equal to the session's effective max-age —
which, the max-age being nonzero, is `Options.MaxAge` itself. -/
theorem lease_ttl_effective_max_age (s : EtcdStore) (b : Backend) (nid : String)
    (sess : Session) (hage : 0 < sess.Options.MaxAge) (ttl : Int)
    (hmem : Effect.grant ttl ∈ (s.Save b nid sess).2.2) :
    ttl = effectiveMaxAge s sess ∧ effectiveMaxAge s sess = sess.Options.MaxAge := by
  have hnle : ¬ sess.Options.MaxAge ≤ 0 := not_le.mpr hage
  have heff : effectiveMaxAge s (if sess.ID = "" then { sess with ID := nid } else sess) =
      effectiveMaxAge s sess := by
    unfold effectiveMaxAge
    rw [(save_session_fields sess nid).2.1]
  constructor
  · unfold EtcdStore.Save at hmem
    simp only [if_neg hnle] at hmem
    rcases hsv : s.save b (if sess.ID = "" then { sess with ID := nid } else sess)
      with ⟨serr, seffs⟩
    rw [hsv] at hmem
    have hgr : Effect.grant ttl ∈ seffs := by
      cases serr with
      | some e => simpa using hmem
      | none =>
          cases henc : encodeMulti (if sess.ID = "" then { sess with ID := nid } else sess).name
              (if sess.ID = "" then { sess with ID := nid } else sess).ID s.Codecs with
          | error e =>
              rw [henc] at hmem
              simpa using hmem
          | ok cvv =>
              rw [henc] at hmem
              simp only [List.mem_append, List.mem_singleton] at hmem
              rcases hmem with hmem | hmem
              · exact hmem
              · exact absurd hmem (by simp)
    have hres := save_grant_ttl s b (if sess.ID = "" then { sess with ID := nid } else sess)
      ttl (by rw [hsv]; exact hgr)
    rw [heff] at hres
    exact hres
  · unfold effectiveMaxAge
    rw [if_neg (by omega)]

/-- C5 witness: a concrete save with `MaxAge = 10` grants a 10-second lease. -/
theorem lease_ttl_effective_max_age_witness :
    (10 : Int) = effectiveMaxAge baseStore wSession5 ∧
    effectiveMaxAge baseStore wSession5 = wSession5.Options.MaxAge :=
  lease_ttl_effective_max_age baseStore okBackend "NID" wSession5 (by decide) 10 (by decide)

/-- C6 counterexample: a load whose backend `get` succeeds with exactly one
record still returns an error when the record's payload fails to
deserialize (here a gob stream read by the JSON serializer) — so an error is
not returned only when the backend `get` itself fails. -/
theorem load_error_despite_get_success_cx :
    cxBackend6.getRes ("session_" ++ "abc") = .ok (some [.gob [(.int 1, .int 2)]]) ∧
    (cxStore6.load cxBackend6 cxSession6).1 =
      (true, some (.serialization "invalid character in JSON input")) := by decide

/-- C6 (amended): `load` reports absent — no data, no error — when the get
succeeds with a nil response or with a number of matching records other
than exactly one; it returns an error exactly when the backend `get` itself
fails or when the single matching record's payload fails to deserialize. -/
theorem load_absent_and_error_cases (s : EtcdStore) (b : Backend) (sess : Session) :
    (∀ kvs, b.getRes (s.keyPref ++ sess.ID) = .ok (some kvs) → kvs.length ≠ 1 →
        (s.load b sess).1 = (false, none)) ∧
    (b.getRes (s.keyPref ++ sess.ID) = .ok none → (s.load b sess).1 = (false, none)) ∧
    (∀ be, b.getRes (s.keyPref ++ sess.ID) = .error be →
        (s.load b sess).1 = (false, some (.backend be))) ∧
    (∀ v e, b.getRes (s.keyPref ++ sess.ID) = .ok (some [v]) →
        deserialize s.serializer v sess.Values = .error e →
        (s.load b sess).1 = (true, some e)) ∧
    (∀ v vals, b.getRes (s.keyPref ++ sess.ID) = .ok (some [v]) →
        deserialize s.serializer v sess.Values = .ok vals →
        (s.load b sess).1 = (true, none)) := by
  refine ⟨?_, ?_, ?_, ?_, ?_⟩
  · intro kvs hget hlen
    unfold EtcdStore.load
    simp only [hget]
    rcases kvs with _ | ⟨v, _ | ⟨w, rest⟩⟩
    · rfl
    · exact absurd rfl hlen
    · rfl
  · intro hget
    unfold EtcdStore.load
    simp only [hget]
  · intro be hget
    unfold EtcdStore.load
    simp only [hget]
  · intro v e hget hdes
    unfold EtcdStore.load
    simp only [hget, hdes]
  · intro v vals hget hdes
    unfold EtcdStore.load
    simp only [hget, hdes]

/-- C6 witness: two matching records and zero matching records both report
absent with no error. -/
theorem load_absent_and_error_cases_witness :
    (baseStore.load wBackendTwo cxSession6).1 = (false, none) ∧
    (baseStore.load okBackend cxSession6).1 = (false, none) := by
  constructor
  · exact (load_absent_and_error_cases baseStore wBackendTwo cxSession6).1
      [.gob [], .gob []] rfl (by decide)
  · exact (load_absent_and_error_cases baseStore okBackend cxSession6).2.1 rfl

/-- C7: after `SetMaxAge v`, the store's default `Options.MaxAge` equals
`v` and the age-validation max-age of every `SecureCookie` codec in the
codec list equals `v`, keeping lease-duration defaults and codec age
validation consistent. -/
theorem setMaxAge_consistency (s : EtcdStore) (v : Int) :
    (s.SetMaxAge v).options.MaxAge = v ∧
    ∀ c ∈ (s.SetMaxAge v).Codecs, ∀ sc, c = Codec.secure sc → sc.maxAge = v := by
  constructor
  · rfl
  · intro c hc sc hcs
    simp only [EtcdStore.SetMaxAge, List.mem_map] at hc
    obtain ⟨c0, _, hc0⟩ := hc
    cases c0 with
    | secure sc0 =>
        rw [← hc0] at hcs
        injection hcs with hsc
        rw [← hsc]
    | other t =>
        rw [← hc0] at hcs
        cases hcs

/-- C7 witness: with one secure codec (threshold 5) and one foreign codec,
`SetMaxAge 99` rewrites the default options and the secure codec. -/
theorem setMaxAge_consistency_witness :
    (wStore7.SetMaxAge 99).options.MaxAge = 99 ∧
    (SecureCookie.mk "hk" none 99).maxAge = 99 := by
  have h := setMaxAge_consistency wStore7 99
  exact ⟨h.1, h.2 (.secure ⟨"hk", none, 99⟩) (by decide) ⟨"hk", none, 99⟩ rfl⟩

/-- C8: text-strategy deserialize merges decoded entries into the existing
value map — a pre-existing entry whose key is not among the payload's keys
survives with its value — whereas binary-strategy deserialize replaces the
value map wholesale: its result is the decoded map, independent of the
target. -/
theorem deserialize_merge_discipline (m : List (String × GoVal)) (t t2 : Values) (k : GoKey) :
    ((∀ p ∈ m, GoKey.str p.1 ≠ k) →
      ∀ r, jsonDeserialize (.json m) t = .ok r → valLookup r k = valLookup t k) ∧
    (∀ mg : Values, gobDeserialize (.gob mg) t = .ok mg) ∧
    (∀ d : Payload, gobDeserialize d t = gobDeserialize d t2) := by
  refine ⟨?_, fun mg => rfl, fun d => rfl⟩
  intro hk r hr
  have hfold : (m.foldl (fun acc p => valInsert acc (.str p.1) p.2) t) = r := by
    simpa [jsonDeserialize, jsonUnmarshal] using hr
  rw [← hfold]
  exact valLookup_jsonMergeFold_notMem m t k hk

/-- C8 witness: merging `a := 1` into a map holding `b := 2` preserves the
`b` entry; gob decode of a one-entry stream yields exactly that entry. -/
theorem deserialize_merge_discipline_witness :
    valLookup [(GoKey.str "b", GoVal.int 2), (GoKey.str "a", GoVal.int 1)] (GoKey.str "b") =
      valLookup [(GoKey.str "b", GoVal.int 2)] (GoKey.str "b") ∧
    gobDeserialize (.gob [(GoKey.int 3, GoVal.bool true)]) [(GoKey.str "b", GoVal.int 2)] =
      .ok [(GoKey.int 3, GoVal.bool true)] := by
  have h := deserialize_merge_discipline [("a", GoVal.int 1)]
    [(GoKey.str "b", GoVal.int 2)] [] (GoKey.str "b")
  exact ⟨h.1 (by decide) _ (by decide), h.2.1 _⟩

/-- C9: whenever `Save` returns an error — serialization failure, size
violation, lease-grant failure, put failure, cookie-encoding failure, or
delete failure on the deletion path — no cookie is emitted on the response:
the cookie effect is appended only after every prior step succeeded. -/
theorem save_no_cookie_on_error (s : EtcdStore) (b : Backend) (nid : String) (sess : Session)
    (e : StoreErr) (he : (s.Save b nid sess).1 = some e)
    (nm : String) (cv : CookieVal) (o : Options) :
    Effect.setCookie nm cv o ∉ (s.Save b nid sess).2.2 := by
  unfold EtcdStore.Save at he ⊢
  by_cases hle : sess.Options.MaxAge ≤ 0
  · simp only [if_pos hle] at he ⊢
    rcases hdel : s.delete b sess with ⟨derr, deffs⟩
    cases derr with
    | some de =>
        intro hmem
        exact delete_effects_no_cookie s b sess nm cv o (by rw [hdel]; simpa using hmem)
    | none =>
        rw [hdel] at he
        simp at he
  · simp only [if_neg hle] at he ⊢
    rcases hsv : s.save b (if sess.ID = "" then { sess with ID := nid } else sess)
      with ⟨serr, seffs⟩
    cases serr with
    | some se =>
        intro hmem
        exact save_effects_no_cookie s b
          (if sess.ID = "" then { sess with ID := nid } else sess) nm cv o
          (by rw [hsv]; simpa using hmem)
    | none =>
        cases henc : encodeMulti (if sess.ID = "" then { sess with ID := nid } else sess).name
            (if sess.ID = "" then { sess with ID := nid } else sess).ID s.Codecs with
        | error ee =>
            intro hmem
            exact save_effects_no_cookie s b
              (if sess.ID = "" then { sess with ID := nid } else sess) nm cv o
              (by rw [hsv]; simpa using hmem)
        | ok cvv =>
            rw [hsv] at he
            rw [henc] at he
            simp at he

/-- C9 witness: a failing (too-big) save emits no cookie. -/
theorem save_no_cookie_on_error_witness :
    Effect.setCookie "sess" CookieVal.blank wOptions ∉
      (wStore3.Save okBackend "NID" wSession3).2.2 :=
  save_no_cookie_on_error wStore3 okBackend "NID" wSession3 .tooBig (by decide)
    "sess" .blank wOptions

/-- C10: `New` allocates a fresh copy of the store's default options for
the session it returns — the fresh cell is a different address holding the
same contents, and assigning through the session's pointer (for example
`session.Options.MaxAge = -1` before a save) leaves the store's default
options cell, and every other pre-existing options cell, unchanged. -/
theorem new_options_copy_frame (h : OptHeap) (storeRef : Nat) (hlt : storeRef < h.length) :
    (newSessionOptions h storeRef).2 ≠ storeRef ∧
    heapGet (newSessionOptions h storeRef).1 (newSessionOptions h storeRef).2 =
      heapGet h storeRef ∧
    heapGet (newSessionOptions h storeRef).1 storeRef = heapGet h storeRef ∧
    ∀ o r2, r2 ≠ (newSessionOptions h storeRef).2 →
      heapGet (heapSet (newSessionOptions h storeRef).1 (newSessionOptions h storeRef).2 o) r2 =
        heapGet (newSessionOptions h storeRef).1 r2 := by
  refine ⟨?_, ?_, ?_, ?_⟩
  · intro heq
    simp only [newSessionOptions] at heq
    omega
  · simp only [newSessionOptions, heapGet, List.getD, List.get?_eq_getElem?]
    rw [List.getElem?_concat_length]
    rfl
  · simp only [newSessionOptions, heapGet]
    exact List.getD_append h _ zeroOptions storeRef hlt
  · intro o r2 hne
    simp only [newSessionOptions] at hne
    simp only [newSessionOptions, heapGet, heapSet, List.getD, List.get?_eq_getElem?]
    rw [List.getElem?_set_ne (fun hc => hne hc.symm)]

/-- C4: a value map whose keys are all strings round-trips through the
text (JSON) strategy — deserializing its serialization into an empty
session yields the original map; a value map containing a non-string key
round-trips exactly through the binary (gob) strategy, while the text
strategy fails it with the serialization error. -/
theorem serializer_round_trip (m1 m2 : Values)
    (h1 : ∀ p ∈ m1, p.1.isStr = true)
    (hnd : (m1.map Prod.fst).Nodup)
    (h2 : ∃ p ∈ m2, p.1.isStr = false) :
    jsonSerialize m1 = .ok (.json (m1.map fun p => (p.1.asStr, p.2))) ∧
    jsonDeserialize (.json (m1.map fun p => (p.1.asStr, p.2))) [] = .ok m1 ∧
    gobSerialize m2 = .ok (.gob m2) ∧
    (∀ t, gobDeserialize (.gob m2) t = .ok m2) ∧
    jsonSerialize m2 = .error (.serialization nonStrMsg) := by
  refine ⟨?_, ?_, rfl, fun t => rfl, ?_⟩
  · simp only [jsonSerialize, jsonSerializeEntries_of_allStr m1 h1]
  · simp only [jsonDeserialize, jsonUnmarshal]
    rw [jsonMergeFold_eq_append _ [] (by simp) (nodup_mapped_str_keys m1 h1 hnd)]
    rw [List.nil_append, List.map_map]
    have hcomp : m1.map ((fun q : String × GoVal => (GoKey.str q.1, q.2)) ∘
        (fun p : GoKey × GoVal => (p.1.asStr, p.2))) =
        m1.map (fun p => (GoKey.str p.1.asStr, p.2)) := rfl
    rw [hcomp, map_strKey_id m1 h1]
  · simp only [jsonSerialize, jsonSerializeEntries_of_nonStr m2 h2]

/-- C4 witness: a string-keyed map round-trips through JSON; an int-keyed
map round-trips through gob and is rejected by JSON. -/
theorem serializer_round_trip_witness :
    jsonSerialize [(GoKey.str "a", GoVal.int 1)] = .ok (.json [("a", .int 1)]) ∧
    jsonDeserialize (.json [("a", .int 1)]) [] = .ok [(GoKey.str "a", GoVal.int 1)] ∧
    gobSerialize [(GoKey.int 7, GoVal.str "x")] = .ok (.gob [(.int 7, .str "x")]) ∧
    jsonSerialize [(GoKey.int 7, GoVal.str "x")] = .error (.serialization nonStrMsg) := by
  have h := serializer_round_trip [(GoKey.str "a", GoVal.int 1)] [(GoKey.int 7, GoVal.str "x")]
    (by decide) (by decide) (by decide)
  exact ⟨h.1, h.2.1, h.2.2.1, h.2.2.2.2⟩

/-- C10 witness: the frame property on a one-cell heap. -/
theorem new_options_copy_frame_witness :
    (newSessionOptions [wOptions] 0).2 ≠ 0 ∧
    heapGet (newSessionOptions [wOptions] 0).1 (newSessionOptions [wOptions] 0).2 =
      heapGet [wOptions] 0 := by
  have h := new_options_copy_frame [wOptions] 0 (by decide)
  exact ⟨h.1, h.2.1⟩

end Etcdstore
